import Mathlib

/-!
Shallow embedding of `src/game.py` (a terminal snake game: `Screen` pixel
buffer, `Snake`/`Food` entities, `Controller` game loop).

Conventions of the embedding:
* Python `int` is `Int`; grid allocation sizes are `Nat`.
* A Python call that raises an exception (`IndexError` from a bad list
  subscript) is modelled by returning `none`; `some` carries the updated state.
* Python lists are Lean `List`s; `list.pop(0)` is `tail`, `list[i] = v` is
  `List.set`, `list.append(v)` is `++ [v]`.
* Python `%` on integers with a positive modulus agrees with Lean `Int`
  `%` (`Int.emod`): the result lies in `[0, modulus)`.  (Python raises
  `ZeroDivisionError` for modulus 0; the theorems below only consider
  positive world dimensions, where the two agree.)
* Each `Snake` in the Python code holds a reference to its `World` and reads
  only `world.width` / `world.height`; those two integers are carried as the
  fields `world_w` / `world_h`.
-/

/-- RGB triple, as used by the Python code (e.g. `(1, 1, 1)`). -/
abbrev Color := Int × Int × Int

/-- A pixel is a `(character, color)` tuple; `none` is the background. -/
abbrev Pixel := Option Char × Color

/-- The error string built in `Screen.set_pixel`:
`f"Screen overflow: x = {x}, y = {y}"`. -/
def overflowMsg (x y : Int) : String :=
  "Screen overflow: x = " ++ toString x ++ ", y = " ++ toString y

/-- The `Screen` state: `pixels` is built as `width` rows of `height` cells each
(`[[self.D_PIXEL] * self.height for _ in range(self.width)]`), and `errors`
is the per-screen error list. -/
structure Screen where
  color : Color
  width : Nat
  height : Nat
  pixels : List (List Pixel)
  errors : List String
deriving Repr, DecidableEq

/-- Embeds `Screen.__init__(width, height, color)`. -/
def Screen.init (width height : Nat) (color : Color) : Screen :=
  { color := color
    width := width
    height := height
    pixels := List.replicate width (List.replicate height ((none : Option Char), color))
    errors := [] }

/-- Embeds `Screen.clear`: rebuilds `pixels` from `D_PIXEL`; the error list is not
touched. -/
def Screen.clear (s : Screen) : Screen :=
  { s with pixels := List.replicate s.width (List.replicate s.height ((none : Option Char), s.color)) }

/-- The assignment `rows[y][x] = p` on a Python list of lists: `none` models the
`IndexError` raised when an index is out of range. -/
def setCell (rows : List (List Pixel)) (y x : Nat) (p : Pixel) : Option (List (List Pixel)) :=
  match rows[y]? with
  | none => none
  | some row =>
    match row[x]? with
    | none => none
    | some _ => some (rows.set y (row.set x p))

/-- Embeds `Screen.set_pixel(x, y, pixel)`.  The guard is the literal Python
condition `y < 0 or x < 0 or y > len(self.pixels) or x > len(self.pixels[0])`
(short-circuit: `self.pixels[0]` is only read when the first three tests
fail, and raises when `pixels` is empty); on guard success one error string
is appended and the grid is untouched; otherwise `self.pixels[y][x] = pixel`
runs, which can itself raise (`none`). -/
def Screen.set_pixel (s : Screen) (x y : Int) (p : Pixel) : Option Screen :=
  if y < 0 ∨ x < 0 ∨ (s.pixels.length : Int) < y then
    some { s with errors := s.errors ++ [overflowMsg x y] }
  else
    match s.pixels[0]? with
    | none => none
    | some row0 =>
      if (row0.length : Int) < x then
        some { s with errors := s.errors ++ [overflowMsg x y] }
      else
        match setCell s.pixels y.toNat x.toNat p with
        | none => none
        | some px => some { s with pixels := px }

/-- The `Snake` state (the `WObject` base fields `width`/`height` are the unused
1×1 logical footprint and are omitted; `world_w`/`world_h` stand for the
snake's reference to its `World`, of which only the dimensions are read). -/
structure Snake where
  pos : Int × Int
  world_w : Int
  world_h : Int
  color : Color
  character : Char
  body : List (Int × Int)
  direction : Int × Int
  speed : Int
deriving Repr, DecidableEq

/-- Embeds `Snake._create_snake(start, length)`: cell `i` is `(x, y + i)`. -/
def Snake.create_snake (start : Int × Int) (length : Nat) : List (Int × Int) :=
  (List.range length).map (fun i => (start.1, start.2 + (i : Int)))

/-- Embeds `Snake._move(pos, dx, dy, w, h)`: translate and wrap with `%`. -/
def Snake.moveWrap (p : Int × Int) (dx dy w h : Int) : Int × Int :=
  ((p.1 + dx) % w, (p.2 + dy) % h)

/-- One assignment `body[i] = body[i-1]` of the shift loop in
`Snake.translate` (for the indices used, `i ≥ 1` and both indices are in
range, so the fall-through `none` branch never fires there). -/
def shiftStep (b : List (Int × Int)) (i : Nat) : List (Int × Int) :=
  match b[i-1]? with
  | none => b
  | some v => b.set i v

/-- The loop `for i in range(len(self.body) - 1, 0, -1): body[i] = body[i-1]`
unrolled from the top index downward: `shiftDown b k` performs the
assignments at indices `k, k-1, …, 1`. -/
def shiftDown (b : List (Int × Int)) : Nat → List (Int × Int)
  | 0 => b
  | Nat.succ i => shiftDown (shiftStep b (i + 1)) i

/-- Embeds `Snake.translate(dx, dy)`: shift the body back by one, then move the head
(`self.body[0]`, which raises on an empty body — `none`) and sync `pos`. -/
def Snake.translate (s : Snake) (dx dy : Int) : Option Snake :=
  let b := shiftDown s.body (s.body.length - 1)
  match b[0]? with
  | none => none
  | some p0 =>
    let nh := Snake.moveWrap p0 dx dy s.world_w s.world_h
    some { s with body := b.set 0 nh, pos := nh }

/-- Embeds `Snake.move`: scale `direction` by `speed` and translate. -/
def Snake.move (s : Snake) : Option Snake :=
  s.translate (s.direction.1 * s.speed) (s.direction.2 * s.speed)

/-- Runs `n` successive `Snake.move` calls (propagating a raise as `none`). -/
def Snake.moveN : Nat → Snake → Option Snake
  | 0, s => some s
  | Nat.succ n, s =>
    match s.move with
    | none => none
    | some s2 => Snake.moveN n s2

/-- Embeds `Snake.draw(screen)`: one `set_pixel` per body segment, in body order. -/
def Snake.draw (s : Snake) (scr : Screen) : Option Screen :=
  s.body.foldlM (fun sc p => sc.set_pixel p.1 p.2 (some s.character, (1, 1, 1))) scr

/-- The `Food` state (a `WObject` with the unused 1×1 footprint omitted). -/
structure Food where
  pos : Int × Int
  character : Char
deriving Repr, DecidableEq

/-- Embeds `Food.draw(screen)`: a single `set_pixel` at its position. -/
def Food.draw (f : Food) (scr : Screen) : Option Screen :=
  scr.set_pixel f.pos.1 f.pos.2 (some f.character, (1, 1, 1))

/-- The two states of the game loop (`while True: … break`). -/
inductive LoopState
  | RUNNING
  | TERMINATED
deriving Repr, DecidableEq

/-- The `Controller` state.  The Python `self.errors` dict only ever receives the
keys `"screen"` (in `_get_errors`) and `"input buffer"` (in `_buffer_input`),
each mapped to a singleton list holding a reference to the named structure;
the two optional fields `screen_diag` / `input_diag` are those entries
(`none` = key absent).  The Python `World` holds `[actor, food]` (aliases of
the controller's own references, in insertion order), so the world is
represented by the `actor` and `food` fields plus the dimensions `w`, `h`. -/
structure Controller where
  w : Nat
  h : Nat
  screen : Screen
  exit_signal : Char
  actor : Snake
  food : Food
  input_buffer : List (Option Char)
  MAX_INPUT_BUFFER : Nat
  screen_diag : Option (List String)
  input_diag : Option (List (Option Char))
deriving Repr, DecidableEq

/-- Embeds `Controller.__init__(w, h)`: 20×20 by default, exit character `q`, a
9-segment snake at `(0, 0)` with direction `(1, 0)` and speed 1, food at
`(10, 10)`, an empty input buffer with `MAX_INPUT_BUFFER = 10`, and an empty
errors dict. -/
def Controller.init (w h : Nat) : Controller :=
  { w := w
    h := h
    screen := Screen.init w h (0, 0, 0)
    exit_signal := 'q'
    actor :=
      { pos := (0, 0)
        world_w := (w : Int)
        world_h := (h : Int)
        color := (1, 1, 1)
        character := '▀'
        body := Snake.create_snake (0, 0) 9
        direction := (1, 0)
        speed := 1 }
    food := { pos := (10, 10), character := '∆' }
    input_buffer := []
    MAX_INPUT_BUFFER := 10
    screen_diag := none
    input_diag := none }

/-- The loop of `Controller.get_input`, with the iteration count
`range(len(self._input_buffer))` as explicit fuel: pop the front until a
non-`None` entry appears, return it (or `None` after the last iteration)
together with the remaining buffer. -/
def getInputLoop : Nat → List (Option Char) → Option Char × List (Option Char)
  | 0, buf => (none, buf)
  | Nat.succ n, buf =>
    match buf with
    | [] => (none, [])
    | ch :: rest =>
      match ch with
      | some c => (some c, rest)
      | none => getInputLoop n rest

/-- Embeds `Controller.get_input`: returns the popped character (if any) and the
buffer left behind (the Python method mutates `self._input_buffer`). -/
def Controller.get_input (buf : List (Option Char)) : Option Char × List (Option Char) :=
  getInputLoop buf.length buf

/-- The buffer arithmetic of `Controller._buffer_input(ch)`: first evict the
front if the buffer is over `MAX` long, then append the polled character
unless the poll came back empty. -/
def bufferInputList (buf : List (Option Char)) (MAX : Nat) (ch : Option Char) : List (Option Char) :=
  let buf1 := if MAX < buf.length then buf.tail else buf
  match ch with
  | none => buf1
  | some c => buf1 ++ [some c]

/-- Embeds `Controller._buffer_input` at state level: update the ring and record the
buffer under the `"input buffer"` diagnostics key (`self._add_error`).  The
polled character `ch` (the result of `self.getch(0.5)`) is a parameter: the
terminal read is external. -/
def Controller.buffer_input (c : Controller) (ch : Option Char) : Controller :=
  let buf := bufferInputList c.input_buffer c.MAX_INPUT_BUFFER ch
  { c with input_buffer := buf, input_diag := some buf }

/-- Embeds `Controller._get_errors`: store (a reference to) `screen.errors` under
the `"screen"` diagnostics key via `self._add_error`. -/
def Controller.get_errors (c : Controller) : Controller :=
  { c with screen_diag := some c.screen.errors }

/-- One comparison `self._input_buffer[i] == self.exit_signal` (`None` never
equals a one-character string). -/
def matchesExit (e : Option Char) (sig : Char) : Bool :=
  match e with
  | some c => c == sig
  | none => false

/-- Embeds `Controller._received_exit_signal`: scan the buffer from the last index
down to 0 for the exit character. -/
def Controller.received_exit_signal (buf : List (Option Char)) (sig : Char) : Bool :=
  buf.reverse.any (fun e => matchesExit e sig)

/-- The input-interpretation block of `Controller.update`: `if ch is not
None`, four independent `if`s (in source order `w`, `a`, `d`, `s`) write the
actor's direction; at most one of them fires per character. -/
def applyDirectionKeys (a0 : Snake) (ch : Option Char) : Snake :=
  match ch with
  | none => a0
  | some k =>
    let a1 := if k == 'w' then { a0 with direction := ((0 : Int), (-1 : Int)) } else a0
    let a2 := if k == 'a' then { a1 with direction := ((-1 : Int), (0 : Int)) } else a1
    let a3 := if k == 'd' then { a2 with direction := ((1 : Int), (0 : Int)) } else a2
    if k == 's' then { a3 with direction := ((0 : Int), (1 : Int)) } else a3

/-- Embeds `Controller.update`: consume at most one buffered character, interpret
it with `applyDirectionKeys`, move the actor, clear the screen and draw the
world (actor first, food second — insertion order).  Any raise inside
`Snake.move` or the draws propagates as `none`. -/
def Controller.update (c : Controller) : Option Controller :=
  let r := Controller.get_input c.input_buffer
  let a4 := applyDirectionKeys c.actor r.1
  match a4.move with
  | none => none
  | some a5 =>
    match a5.draw c.screen.clear with
    | none => none
    | some scr2 =>
      match c.food.draw scr2 with
      | none => none
      | some scr3 =>
        some { c with input_buffer := r.2, actor := a5, screen := scr3 }

/-- One iteration of the `while True` loop in `Controller.start`:
`update`, `show` (pure printing, no state change), `_get_errors`,
`_show_error` (printing), `_buffer_input` with this iteration's poll result,
then the exit check deciding whether the loop breaks (`TERMINATED`) or goes
round again (`RUNNING`).  A raise anywhere propagates as `none`. -/
def Controller.step (c : Controller) (poll : Option Char) : Option (Controller × LoopState) :=
  match c.update with
  | none => none
  | some c1 =>
    let c2 := c1.get_errors
    let c3 := c2.buffer_input poll
    if Controller.received_exit_signal c3.input_buffer c3.exit_signal then
      some (c3, LoopState.TERMINATED)
    else
      some (c3, LoopState.RUNNING)

/-- The fixed direction table as the specification states it
(`w ↦ (0,-1)`, `a ↦ (-1,0)`, `s ↦ (0,1)`, `d ↦ (1,0)`; an unrecognized
character — or no input — leaves the direction unchanged).  This definition
follows the spec's words; the theorem for C7 relates it to the source-level
`applyDirectionKeys` block inside `Controller.update`. -/
def specDirTable (d : Int × Int) (ch : Option Char) : Int × Int :=
  match ch with
  | none => d
  | some k =>
    if k = 'w' then (0, -1)
    else if k = 'a' then (-1, 0)
    else if k = 's' then (0, 1)
    else if k = 'd' then (1, 0)
    else d

/-- Concrete snake used by the C3 witness: head `(0, 0)` on a 5×5 world,
direction `(-1, 0)`, so the head wraps to `(4, 0)`. -/
def snakeWit : Snake :=
  { pos := (0, 0)
    world_w := 5
    world_h := 5
    color := (1, 1, 1)
    character := 'o'
    body := [(0, 0), (0, 1)]
    direction := (-1, 0)
    speed := 1 }

/-- The state after one `Snake.move` of `snakeWit`. -/
def snakeWit2 : Snake := (Snake.move snakeWit).getD snakeWit

/-- Concrete snake used by the C4 witness: 3 segments, direction `(0, 1)`,
speed 2 on a 5×5 world. -/
def snakeWit3 : Snake :=
  { pos := (2, 2)
    world_w := 5
    world_h := 5
    color := (1, 1, 1)
    character := 'o'
    body := [(2, 2), (2, 3), (2, 4)]
    direction := (0, 1)
    speed := 2 }

/-- The state after one `Snake.move` of `snakeWit3`. -/
def snakeWit4 : Snake := (Snake.move snakeWit3).getD snakeWit3

/-- A 9×9 controller (`Controller(9, 9)` in Python): the snake fits, but the
food at `(10, 10)` fails the bounds check on every draw, so each loop
iteration appends exactly one `Screen overflow` entry without raising. -/
def ctrl9 : Controller := Controller.init 9 9

/-- The controller `ctrl9` with a `w` keypress already buffered. -/
def ctrl9W : Controller := { ctrl9 with input_buffer := [some 'w'] }

/-- The controller after `ctrl9W.update`. -/
def ctrl9W2 : Controller := (Controller.update ctrl9W).getD ctrl9W

/-- The controller `ctrl9` with an unrecognized keypress (`x`) already buffered. -/
def ctrl9X : Controller := { ctrl9 with input_buffer := [some 'x'] }

/-- The controller after `ctrl9X.update`. -/
def ctrl9X2 : Controller := (Controller.update ctrl9X).getD ctrl9X

/-- The loop iteration of `ctrl9` in which a `q` is polled. -/
def stepQpair : Controller × LoopState :=
  (Controller.step ctrl9 (some 'q')).getD (ctrl9, LoopState.RUNNING)

/-- The loop iteration of `ctrl9` in which an `x` is polled. -/
def stepXpair : Controller × LoopState :=
  (Controller.step ctrl9 (some 'x')).getD (ctrl9, LoopState.RUNNING)

/-- The loop iteration of `ctrl9` in which the poll returns no key. -/
def stepN1 : Controller × LoopState :=
  (Controller.step ctrl9 none).getD (ctrl9, LoopState.RUNNING)

/-! ### Lemmas about the body-shift loop -/

theorem shiftStep_length (b : List (Int × Int)) (i : Nat) :
    (shiftStep b i).length = b.length := by
  unfold shiftStep
  cases h : b[i - 1]? <;> simp

theorem shiftDown_length : ∀ (k : Nat) (b : List (Int × Int)),
    (shiftDown b k).length = b.length := by
  intro k
  induction k with
  | zero => intro b; rfl
  | succ i ih =>
    intro b
    show (shiftDown (shiftStep b (i + 1)) i).length = _
    rw [ih, shiftStep_length]

/-- Net effect of the descending shift loop on each index: indices `1..k`
receive their predecessor's old value, every other index is untouched. -/
theorem shiftDown_getElem? :
    ∀ (k : Nat) (b : List (Int × Int)), k < b.length →
      ∀ j : Nat, (shiftDown b k)[j]? = if 1 ≤ j ∧ j ≤ k then b[j - 1]? else b[j]? := by
  intro k
  induction k with
  | zero =>
    intro b _ j
    have hcond : ¬(1 ≤ j ∧ j ≤ 0) := by omega
    simp only [shiftDown, if_neg hcond]
  | succ i ih =>
    intro b hk j
    have hi : i < b.length := by omega
    have hstep : shiftStep b (i + 1) = b.set (i + 1) b[i] := by
      unfold shiftStep
      simp only [Nat.add_sub_cancel]
      rw [List.getElem?_eq_getElem hi]
    show (shiftDown (shiftStep b (i + 1)) i)[j]? = _
    rw [hstep]
    have hlen : i < (b.set (i + 1) b[i]).length := by
      rw [List.length_set]; exact hi
    rw [ih _ hlen j]
    by_cases h1 : 1 ≤ j ∧ j ≤ i
    · rw [if_pos h1, if_pos (by omega)]
      exact List.getElem?_set_ne (by omega)
    · by_cases h2 : j = i + 1
      · subst h2
        rw [if_neg h1, if_pos (by omega)]
        rw [List.getElem?_set_eq_of_lt _ (by omega)]
        rw [Nat.add_sub_cancel, List.getElem?_eq_getElem hi]
      · rw [if_neg h1, if_neg (by omega)]
        exact List.getElem?_set_ne (by omega)

/-- Behaviour of `Snake.translate` on a non-empty body: the shift, the wrapped new head
written at index 0, and `pos` synced to the new head. -/
theorem translate_of_ne_nil (s : Snake) (dx dy : Int) (hb : s.body ≠ []) :
    s.translate dx dy =
      some { s with
              body := (shiftDown s.body (s.body.length - 1)).set 0
                        (Snake.moveWrap (s.body.headD (0, 0)) dx dy s.world_w s.world_h)
              pos := Snake.moveWrap (s.body.headD (0, 0)) dx dy s.world_w s.world_h } := by
  have hlen : 0 < s.body.length := List.length_pos.mpr hb
  have hk : s.body.length - 1 < s.body.length := by omega
  have hhead : s.body[0]? = some (s.body.headD (0, 0)) := by
    obtain ⟨p, rest, hpr⟩ := List.exists_cons_of_ne_nil hb
    rw [hpr]
    simp
  have h0 : (shiftDown s.body (s.body.length - 1))[0]? = some (s.body.headD (0, 0)) := by
    rw [shiftDown_getElem? _ _ hk 0]
    simpa using hhead
  unfold Snake.translate
  simp only [h0]

theorem headD_set_zero (l : List (Int × Int)) (hl : 0 < l.length) (v d : Int × Int) :
    (l.set 0 v).headD d = v := by
  cases l with
  | nil => simp at hl
  | cons a t => rfl

/-- A successful `Snake.move` never changes the body length. -/
theorem Snake.move_length (s s2 : Snake) (h : s.move = some s2) :
    s2.body.length = s.body.length := by
  by_cases hb : s.body = []
  · exfalso
    rw [Snake.move, Snake.translate] at h
    simp [hb, shiftDown] at h
  · rw [Snake.move, translate_of_ne_nil s _ _ hb] at h
    cases h
    simp [List.length_set, shiftDown_length]

/-- C3: advancing an actor with a non-empty body on a world of positive
dimensions `W × H` moves the head from `(x, y)` to
`((x + dx) % W, (y + dy) % H)` with `(dx, dy) = direction × speed`, where
`%` is mathematical modulo (the new head lies in `[0, W) × [0, H)` for
positive and negative deltas alike), and afterwards `pos` equals the new
head. -/
theorem snake_advance_wrap (s s2 : Snake)
    (hb : s.body ≠ []) (hw : 0 < s.world_w) (hh : 0 < s.world_h)
    (h : s.move = some s2) :
    s2.body.headD (0, 0) =
      (((s.body.headD (0, 0)).1 + s.direction.1 * s.speed) % s.world_w,
       ((s.body.headD (0, 0)).2 + s.direction.2 * s.speed) % s.world_h)
    ∧ s2.pos = s2.body.headD (0, 0)
    ∧ 0 ≤ s2.pos.1 ∧ s2.pos.1 < s.world_w
    ∧ 0 ≤ s2.pos.2 ∧ s2.pos.2 < s.world_h := by
  have hlen : 0 < s.body.length := List.length_pos.mpr hb
  rw [Snake.move, translate_of_ne_nil s _ _ hb] at h
  cases h
  have hsl : 0 < (shiftDown s.body (s.body.length - 1)).length := by
    rw [shiftDown_length]
    exact hlen
  refine ⟨?_, ?_, Int.emod_nonneg _ (by omega), Int.emod_lt_of_pos _ hw,
    Int.emod_nonneg _ (by omega), Int.emod_lt_of_pos _ hh⟩
  · rw [headD_set_zero _ hsl]
    rfl
  · rw [headD_set_zero _ hsl]

theorem snake_advance_wrap_witness :
    snakeWit.body ≠ [] ∧
    (snakeWit2.body.headD (0, 0) =
        (((snakeWit.body.headD (0, 0)).1 + snakeWit.direction.1 * snakeWit.speed) % snakeWit.world_w,
         ((snakeWit.body.headD (0, 0)).2 + snakeWit.direction.2 * snakeWit.speed) % snakeWit.world_h)
      ∧ snakeWit2.pos = snakeWit2.body.headD (0, 0)
      ∧ 0 ≤ snakeWit2.pos.1 ∧ snakeWit2.pos.1 < snakeWit.world_w
      ∧ 0 ≤ snakeWit2.pos.2 ∧ snakeWit2.pos.2 < snakeWit.world_h) :=
  ⟨by decide,
   snake_advance_wrap snakeWit snakeWit2 (by decide) (by decide) (by decide) (by decide)⟩

/-- C4: after one advance the body has shifted — `new_body[i] = old_body[i-1]`
for every valid `i > 0` — and the body length is invariant across any number
of advance steps. -/
theorem snake_advance_body_shift (s : Snake) :
    (∀ s2 : Snake, s.move = some s2 →
        s2.body.length = s.body.length ∧
        ∀ i : Nat, 0 < i → i < s2.body.length → s2.body[i]? = s.body[i - 1]?)
    ∧ ∀ (n : Nat) (s3 : Snake), Snake.moveN n s = some s3 →
        s3.body.length = s.body.length := by
  constructor
  · intro s2 h
    refine ⟨Snake.move_length s s2 h, ?_⟩
    intro i hi his
    by_cases hb : s.body = []
    · exfalso
      rw [Snake.move, Snake.translate] at h
      simp [hb, shiftDown] at h
    · rw [Snake.move, translate_of_ne_nil s _ _ hb] at h
      cases h
      have his2 : i < s.body.length := by
        simpa [List.length_set, shiftDown_length] using his
      have hlen : 0 < s.body.length := List.length_pos.mpr hb
      have hk : s.body.length - 1 < s.body.length := by omega
      show ((shiftDown s.body (s.body.length - 1)).set 0 _)[i]? = _
      rw [List.getElem?_set_ne (by omega), shiftDown_getElem? _ _ hk i,
        if_pos (by omega)]
  · have key : ∀ (n : Nat) (t t3 : Snake), Snake.moveN n t = some t3 →
        t3.body.length = t.body.length := by
      intro n
      induction n with
      | zero =>
        intro t t3 h
        cases h
        rfl
      | succ m ih =>
        intro t t3 h
        cases hm : t.move with
        | none => simp [Snake.moveN, hm] at h
        | some t2 =>
          simp only [Snake.moveN, hm] at h
          rw [ih t2 t3 h, Snake.move_length t t2 hm]
    exact fun n s3 h => key n s s3 h

/-! ### Lemmas about the input ring buffer -/

theorem bufferInputList_length_le (buf : List (Option Char)) (MAX : Nat) (ch : Option Char)
    (h : buf.length ≤ MAX + 1) : (bufferInputList buf MAX ch).length ≤ MAX + 1 := by
  unfold bufferInputList
  by_cases hover : MAX < buf.length
  · cases ch <;> simp [hover, List.length_tail] <;> omega
  · cases ch <;> simp [hover] <;> omega

theorem foldl_buffer_length_le (MAX : Nat) :
    ∀ (polls : List (Option Char)) (b : List (Option Char)), b.length ≤ MAX + 1 →
      (polls.foldl (fun b2 ch => bufferInputList b2 MAX ch) b).length ≤ MAX + 1 := by
  intro polls
  induction polls with
  | nil =>
    intro b hb
    simpa using hb
  | cons p ps ih =>
    intro b hb
    simp only [List.foldl_cons]
    exact ih _ (bufferInputList_length_le b MAX p hb)

theorem foldl_buffer_no_none (MAX : Nat) :
    ∀ (polls : List (Option Char)) (b : List (Option Char)),
      (∀ e ∈ b, e ≠ none) →
      ∀ e ∈ polls.foldl (fun b2 ch => bufferInputList b2 MAX ch) b, e ≠ none := by
  intro polls
  induction polls with
  | nil =>
    intro b hb
    simpa using hb
  | cons p ps ih =>
    intro b hb
    simp only [List.foldl_cons]
    have hb1 : ∀ e ∈ (if MAX < b.length then b.tail else b), e ≠ none := by
      intro e he
      by_cases hov : MAX < b.length
      · rw [if_pos hov] at he
        exact hb e (List.mem_of_mem_tail he)
      · rw [if_neg hov] at he
        exact hb e he
    cases p with
    | none => exact ih _ (by simpa [bufferInputList] using hb1)
    | some c =>
      apply ih
      intro e he
      have hsplit : e ∈ (if MAX < b.length then b.tail else b) ∨ e = some c := by
        simpa [bufferInputList] using he
      cases hsplit with
      | inl h2 => exact hb1 e h2
      | inr h2 =>
        rw [h2]
        simp

/-- C5: the ring never exceeds `MAX_BUFFER + 1` entries (over any sequence of
polls starting from the empty buffer), and pushing a character into a full
ring of capacity `N = MAX_BUFFER + 1` drops exactly the oldest entry, leaving
size `N` with the new character at the back. -/
theorem buffer_bound_and_evict (MAX : Nat) (polls : List (Option Char))
    (buf : List (Option Char)) (c : Char) (hfull : buf.length = MAX + 1) :
    (polls.foldl (fun b ch => bufferInputList b MAX ch) []).length ≤ MAX + 1
    ∧ bufferInputList buf MAX (some c) = buf.tail ++ [some c]
    ∧ (bufferInputList buf MAX (some c)).length = MAX + 1 := by
  have hover : MAX < buf.length := by omega
  refine ⟨foldl_buffer_length_le MAX polls [] (by simp), ?_, ?_⟩
  · unfold bufferInputList
    rw [if_pos hover]
  · unfold bufferInputList
    rw [if_pos hover]
    simp [List.length_tail]
    omega

theorem buffer_bound_and_evict_witness :
    ([some 'a', some 'b', some 'c'] : List (Option Char)).length = 2 + 1
    ∧ ((([some 'x', none] : List (Option Char)).foldl
          (fun b ch => bufferInputList b 2 ch) []).length ≤ 2 + 1
      ∧ bufferInputList [some 'a', some 'b', some 'c'] 2 (some 'z') =
          ([some 'a', some 'b', some 'c'] : List (Option Char)).tail ++ [some 'z']
      ∧ (bufferInputList [some 'a', some 'b', some 'c'] 2 (some 'z')).length = 2 + 1) :=
  ⟨by decide, buffer_bound_and_evict 2 [some 'x', none] [some 'a', some 'b', some 'c'] 'z' (by decide)⟩

/-- C9: when `_buffer_input` runs with the buffer strictly longer than
`MAX_BUFFER`, the oldest entry is evicted even when the poll returned no
character: the buffer becomes its own tail, one entry shorter. -/
theorem overfull_poll_none_evicts (MAX : Nat) (buf : List (Option Char))
    (hover : MAX < buf.length) :
    bufferInputList buf MAX none = buf.tail
    ∧ (bufferInputList buf MAX none).length + 1 = buf.length := by
  refine ⟨?_, ?_⟩
  · unfold bufferInputList
    rw [if_pos hover]
  · unfold bufferInputList
    rw [if_pos hover]
    simp [List.length_tail]
    omega

theorem overfull_poll_none_evicts_witness :
    1 < ([some 'a', some 'b', some 'c'] : List (Option Char)).length
    ∧ (bufferInputList [some 'a', some 'b', some 'c'] 1 none =
          ([some 'a', some 'b', some 'c'] : List (Option Char)).tail
      ∧ (bufferInputList [some 'a', some 'b', some 'c'] 1 none).length + 1 =
          ([some 'a', some 'b', some 'c'] : List (Option Char)).length) :=
  ⟨by decide, overfull_poll_none_evicts 1 [some 'a', some 'b', some 'c'] (by decide)⟩

/-- C10: buffers built by `_buffer_input` from an empty buffer never contain
a `None` entry; `get_input` on a non-empty such buffer pops exactly the
oldest entry and returns it; `get_input` on an empty buffer returns `None`
and leaves the buffer empty. -/
theorem buffer_no_none_and_get_input (MAX : Nat) (polls : List (Option Char))
    (buf : List (Option Char)) (hinv : ∀ e ∈ buf, e ≠ none) (hne : buf ≠ []) :
    (∀ e ∈ polls.foldl (fun b ch => bufferInputList b MAX ch) [], e ≠ none)
    ∧ Controller.get_input buf = (buf.headD none, buf.tail)
    ∧ Controller.get_input [] = (none, []) := by
  refine ⟨foldl_buffer_no_none MAX polls [] (by simp), ?_, rfl⟩
  obtain ⟨e, rest, hpr⟩ := List.exists_cons_of_ne_nil hne
  subst hpr
  have he : e ≠ none := hinv e (by simp)
  cases e with
  | none => exact absurd rfl he
  | some c => rfl

theorem buffer_no_none_and_get_input_witness :
    Controller.get_input [some 'w', some 'q'] =
      (([some 'w', some 'q'] : List (Option Char)).headD none,
       ([some 'w', some 'q'] : List (Option Char)).tail)
    ∧ Controller.get_input [] = (none, []) :=
  ⟨(buffer_no_none_and_get_input 10 [some 'a', none] [some 'w', some 'q']
      (by decide) (by decide)).2.1,
   (buffer_no_none_and_get_input 10 [some 'a', none] [some 'w', some 'q']
      (by decide) (by decide)).2.2⟩

theorem snake_advance_body_shift_witness :
    (snakeWit4.body.length = snakeWit3.body.length
      ∧ snakeWit4.body[1]? = snakeWit3.body[0]?
      ∧ snakeWit4.body[2]? = snakeWit3.body[1]?)
    ∧ ((Snake.moveN 4 snakeWit3).getD snakeWit3).body.length = snakeWit3.body.length := by
  have h := snake_advance_body_shift snakeWit3
  have h1 := h.1 snakeWit4 (by decide)
  exact ⟨⟨h1.1, h1.2 1 (by decide) (by decide), h1.2 2 (by decide) (by decide)⟩,
    h.2 4 ((Snake.moveN 4 snakeWit3).getD snakeWit3) (by decide)⟩

/-! ### Lemmas about `Screen` errors and `Controller.update` -/

/-- A non-raising `set_pixel` call only ever appends to the error list. -/
theorem set_pixel_errors_append (s : Screen) (x y : Int) (p : Pixel) (s2 : Screen)
    (h : s.set_pixel x y p = some s2) : ∃ t, s2.errors = s.errors ++ t := by
  unfold Screen.set_pixel at h
  split at h
  · cases h
    exact ⟨[overflowMsg x y], rfl⟩
  · split at h
    · exact Option.noConfusion h
    · split at h
      · cases h
        exact ⟨[overflowMsg x y], rfl⟩
      · split at h
        · exact Option.noConfusion h
        · cases h
          exact ⟨[], by simp⟩

/-- The per-segment `set_pixel` fold of `Snake.draw` only appends errors. -/
theorem draw_fold_errors : ∀ (body : List (Int × Int)) (ch : Char) (scr scr2 : Screen),
    body.foldlM (fun sc p => sc.set_pixel p.1 p.2 (some ch, (1, 1, 1))) scr = some scr2 →
    ∃ t, scr2.errors = scr.errors ++ t := by
  intro body
  induction body with
  | nil =>
    intro ch scr scr2 h
    cases h
    exact ⟨[], by simp⟩
  | cons p ps ih =>
    intro ch scr scr2 h
    rw [List.foldlM_cons] at h
    cases h1 : scr.set_pixel p.1 p.2 (some ch, (1, 1, 1)) with
    | none =>
      rw [h1] at h
      exact Option.noConfusion h
    | some sc1 =>
      rw [h1] at h
      obtain ⟨t1, ht1⟩ := set_pixel_errors_append _ _ _ _ _ h1
      obtain ⟨t2, ht2⟩ := ih ch sc1 scr2 h
      exact ⟨t1 ++ t2, by rw [ht2, ht1, List.append_assoc]⟩

/-- Dissection of a successful `Controller.update`: the moved actor, the two
draw results, and the final record. -/
theorem Controller.update_elim (c c2 : Controller) (h : c.update = some c2) :
    ∃ a5 scr2 scr3,
      (applyDirectionKeys c.actor (Controller.get_input c.input_buffer).1).move = some a5
      ∧ a5.draw c.screen.clear = some scr2
      ∧ c.food.draw scr2 = some scr3
      ∧ c2 = { c with
                input_buffer := (Controller.get_input c.input_buffer).2
                actor := a5
                screen := scr3 } := by
  unfold Controller.update at h
  cases hm : (applyDirectionKeys c.actor (Controller.get_input c.input_buffer).1).move with
  | none =>
    simp only [hm] at h
    exact Option.noConfusion h
  | some a5 =>
    simp only [hm] at h
    cases hd1 : a5.draw c.screen.clear with
    | none =>
      simp only [hd1] at h
      exact Option.noConfusion h
    | some scr2 =>
      simp only [hd1] at h
      cases hd2 : c.food.draw scr2 with
      | none =>
        simp only [hd2] at h
        exact Option.noConfusion h
      | some scr3 =>
        simp only [hd2, Option.some.injEq] at h
        exact ⟨a5, scr2, scr3, rfl, hd1, hd2, h.symm⟩

/-- The four sequential `if`s of `applyDirectionKeys` implement exactly the
spec's direction table. -/
theorem applyDirectionKeys_eq (a : Snake) (ch : Option Char) :
    applyDirectionKeys a ch = { a with direction := specDirTable a.direction ch } := by
  cases ch with
  | none => rfl
  | some k =>
    by_cases hw : k = 'w'
    · subst hw
      rfl
    · by_cases ha : k = 'a'
      · subst ha
        rfl
      · by_cases hd : k = 'd'
        · subst hd
          rfl
        · by_cases hs : k = 's'
          · subst hs
            rfl
          · simp [applyDirectionKeys, specDirTable, hw, ha, hd, hs]

/-- Behaviour of `get_input` on a buffer whose entries are all non-`None`: pop the head. -/
theorem get_input_of_no_none (buf : List (Option Char)) (hb : ∀ e ∈ buf, e ≠ none) :
    Controller.get_input buf = (buf.headD none, buf.tail) := by
  cases buf with
  | nil => rfl
  | cons e rest =>
    have he : e ≠ none := hb e (List.mem_cons_self e rest)
    cases e with
    | none => exact absurd rfl he
    | some k => rfl

/-- C7: in one `update`, at most one buffered character is consumed (the
buffer just loses its head, or stays empty), the consumed character is
interpreted through the fixed `w`/`a`/`s`/`d` table — any other character
leaves the direction unchanged, with no error — and the actor is advanced
exactly once: the new actor is one `Snake.move` of the direction-updated
actor, whether or not input was present. -/
theorem update_consumes_one_and_advances (c c2 : Controller)
    (hb : ∀ e ∈ c.input_buffer, e ≠ none) (h : c.update = some c2) :
    c2.input_buffer = c.input_buffer.tail
    ∧ Snake.move { c.actor with
        direction := specDirTable c.actor.direction (c.input_buffer.headD none) } =
        some c2.actor := by
  obtain ⟨a5, scr2, scr3, hm, hd1, hd2, hc2⟩ := Controller.update_elim c c2 h
  have hget : Controller.get_input c.input_buffer = (c.input_buffer.headD none, c.input_buffer.tail) :=
    get_input_of_no_none c.input_buffer hb
  rw [hget] at hm
  rw [applyDirectionKeys_eq] at hm
  subst hc2
  exact ⟨by rw [hget], hm⟩

theorem update_consumes_one_and_advances_witness :
    (ctrl9W2.input_buffer = ctrl9W.input_buffer.tail
      ∧ Snake.move { ctrl9W.actor with
          direction := specDirTable ctrl9W.actor.direction (ctrl9W.input_buffer.headD none) } =
          some ctrl9W2.actor)
    ∧ (ctrl9X2.input_buffer = ctrl9X.input_buffer.tail
      ∧ Snake.move { ctrl9X.actor with
          direction := specDirTable ctrl9X.actor.direction (ctrl9X.input_buffer.headD none) } =
          some ctrl9X2.actor) :=
  ⟨update_consumes_one_and_advances ctrl9W ctrl9W2 (by decide) (by decide),
   update_consumes_one_and_advances ctrl9X ctrl9X2 (by decide) (by decide)⟩

/-- A successful `Controller.update` only ever appends to the screen's error
list (`Screen.clear` does not touch it, and the draws only append). -/
theorem update_errors_append (c c1 : Controller) (h : c.update = some c1) :
    ∃ t, c1.screen.errors = c.screen.errors ++ t := by
  obtain ⟨a5, scr2, scr3, hm, hd1, hd2, hc1⟩ := Controller.update_elim c c1 h
  obtain ⟨t1, ht1⟩ := draw_fold_errors a5.body a5.character c.screen.clear scr2 hd1
  obtain ⟨t2, ht2⟩ :=
    set_pixel_errors_append scr2 c.food.pos.1 c.food.pos.2 (some c.food.character, (1, 1, 1)) scr3 hd2
  subst hc1
  refine ⟨t1 ++ t2, ?_⟩
  show scr3.errors = c.screen.errors ++ (t1 ++ t2)
  rw [ht2, ht1, List.append_assoc]
  rfl

/-- Dissection of a successful `Controller.step`: the new state is the
updated controller run through `_get_errors` and `_buffer_input`, and the
loop continues or terminates according to the exit scan. -/
theorem Controller.step_elim (c : Controller) (poll : Option Char)
    (c3 : Controller) (st : LoopState) (h : c.step poll = some (c3, st)) :
    ∃ c1, c.update = some c1
      ∧ c3 = (c1.get_errors).buffer_input poll
      ∧ st = (if Controller.received_exit_signal c3.input_buffer c3.exit_signal
              then LoopState.TERMINATED else LoopState.RUNNING) := by
  unfold Controller.step at h
  cases hu : c.update with
  | none =>
    simp only [hu] at h
    exact Option.noConfusion h
  | some c1 =>
    simp only [hu] at h
    refine ⟨c1, rfl, ?_⟩
    split at h
    case isTrue hex =>
      simp only [Option.some.injEq, Prod.mk.injEq] at h
      obtain ⟨h1, h2⟩ := h
      subst h1
      subst h2
      exact ⟨rfl, by rw [if_pos hex]⟩
    case isFalse hex =>
      simp only [Option.some.injEq, Prod.mk.injEq] at h
      obtain ⟨h1, h2⟩ := h
      subst h1
      subst h2
      exact ⟨rfl, by rw [if_neg hex]⟩

/-- C2 (amended): nothing ever clears the screen's error list — `_clear_error`
exists but is never called, and `Screen.clear` does not touch `errors` — so
across a loop iteration the error list is the previous list extended with the
entries produced this frame, and the `"screen"` diagnostics entry collected
(and printed) each frame is this whole accumulated list, not just the
current frame's entries.  (The diagnostics-map *entry* is overwritten each
frame.) -/
theorem errors_accumulate (c : Controller) (poll : Option Char)
    (c3 : Controller) (st : LoopState) (h : c.step poll = some (c3, st)) :
    (∃ t, c3.screen.errors = c.screen.errors ++ t)
    ∧ c3.screen_diag = some c3.screen.errors := by
  obtain ⟨c1, hu, hc3, hst⟩ := Controller.step_elim c poll c3 st h
  obtain ⟨t, ht⟩ := update_errors_append c c1 hu
  subst hc3
  exact ⟨⟨t, ht⟩, rfl⟩

theorem errors_accumulate_witness :
    stepN1.1.screen_diag = some stepN1.1.screen.errors :=
  (errors_accumulate ctrl9 none stepN1.1 stepN1.2 (by decide)).2

/-- C2 counterexample: on `Controller(9, 9)` every frame's draw appends
exactly one bounds-violation entry (the food at `(10, 10)`), yet after the
second iteration the collected `"screen"` diagnostics hold **two** entries —
the first frame's entry is still there, refuting the claim that diagnostics
contain only the entries produced during that iteration. -/
theorem errors_cleared_each_frame_cex :
    (Controller.step ctrl9 none).map (fun p => p.1.screen.errors) =
      some [overflowMsg 10 10]
    ∧ ((Controller.step ctrl9 none).bind (fun p => Controller.step p.1 none)).map
        (fun p => p.1.screen_diag) =
      some (some [overflowMsg 10 10, overflowMsg 10 10]) :=
  ⟨by decide, by decide⟩

/-- The scan `_received_exit_signal` is exactly membership of the exit character. -/
theorem received_exit_iff (buf : List (Option Char)) (sig : Char) :
    Controller.received_exit_signal buf sig = true ↔ some sig ∈ buf := by
  unfold Controller.received_exit_signal
  rw [List.any_eq_true]
  constructor
  · rintro ⟨e, he, hmm⟩
    cases e with
    | none => exact absurd hmm (by simp [matchesExit])
    | some k =>
      have hk : k = sig := by simpa [matchesExit] using hmm
      subst hk
      exact List.mem_reverse.mp he
  · intro hmem
    exact ⟨some sig, List.mem_reverse.mpr hmem, by simp [matchesExit]⟩

/-- C6: in any loop iteration, if the exit character occurs anywhere in the
input buffer at exit-check time (after this frame's poll is buffered), the
loop transitions to `TERMINATED` in that iteration; if it occurs nowhere,
the loop stays `RUNNING`. -/
theorem exit_scan_decides_loop (c : Controller) (poll : Option Char)
    (c3 : Controller) (st : LoopState) (h : c.step poll = some (c3, st)) :
    (some c.exit_signal ∈ c3.input_buffer → st = LoopState.TERMINATED)
    ∧ (some c.exit_signal ∉ c3.input_buffer → st = LoopState.RUNNING) := by
  obtain ⟨c1, hu, hc3, hst⟩ := Controller.step_elim c poll c3 st h
  have hsig : c3.exit_signal = c.exit_signal := by
    obtain ⟨a5, s2, s3, _, _, _, hc1⟩ := Controller.update_elim c c1 hu
    subst hc3
    subst hc1
    rfl
  constructor
  · intro hmem
    have hex : Controller.received_exit_signal c3.input_buffer c3.exit_signal = true := by
      rw [received_exit_iff, hsig]
      exact hmem
    rw [hst, if_pos hex]
  · intro hmem
    have hex : ¬Controller.received_exit_signal c3.input_buffer c3.exit_signal = true := by
      rw [received_exit_iff, hsig]
      exact hmem
    rw [hst, if_neg hex]

theorem exit_scan_decides_loop_witness :
    stepQpair.2 = LoopState.TERMINATED ∧ stepXpair.2 = LoopState.RUNNING :=
  ⟨(exit_scan_decides_loop ctrl9 (some 'q') stepQpair.1 stepQpair.2 (by decide)).1 (by decide),
   (exit_scan_decides_loop ctrl9 (some 'x') stepXpair.1 stepXpair.2 (by decide)).2 (by decide)⟩

/-- C1 (evaluation at the failing input): `(20, 0)` lies outside
`[0,20) × [0,20)`, so the claim requires the write to be dropped with one
error recorded and no exception — but `set_pixel` on a fresh 20×20 screen
passes its permissive bound check (`0 ≤ 20`, `¬ 20 > 20`) and the raw write
`pixels[0][20]` raises `IndexError` (modelled as `none`), recording
nothing. -/
theorem set_pixel_oob_raises :
    Screen.set_pixel (Screen.init 20 20 (0, 0, 0)) 20 0 (some 'X', (1, 1, 1)) = none := by
  decide

/-- C8: the grid is allocated as `width` rows of `height` cells; `set_pixel`
writes `pixels[y][x]` behind a strict-greater check of `y` against the row
count and `x` against a row's length, so `x = width` on a square 20×20 grid
and the spec-in-bounds `(x, y) = (0, 3)` on a 3×5 grid both pass the check
and raise on the raw access (`none`), with no error descriptor appended. -/
theorem set_pixel_off_by_one :
    (∀ w h : Nat, ∀ cl : Color,
      (Screen.init w h cl).pixels.length = w
      ∧ (Screen.init w h cl).pixels.map List.length = List.replicate w h)
    ∧ Screen.set_pixel (Screen.init 20 20 (0, 0, 0)) 20 5 (some 'X', (1, 1, 1)) = none
    ∧ Screen.set_pixel (Screen.init 3 5 (0, 0, 0)) 0 3 (some 'X', (1, 1, 1)) = none := by
  refine ⟨?_, by decide, by decide⟩
  intro w h cl
  constructor
  · simp [Screen.init]
  · simp [Screen.init]
